import Mathlib

/-!
Verification of the TalentConnect skill-matching and categorization core.

The development shallow-embeds the JavaScript functions of
`controllers/userSearchController.js` (matchSkills, areRelatedSkills,
getProfessionalCategories) and the shared `processSkills` helper of
`controllers/dashboardController.js` / `controllers/registerController.js`.

JavaScript strings are modelled as `List Char` (`Str`), so that every
definition is executable by the kernel.  JavaScript string primitives
(`trim`, `toLowerCase`, `split`, `includes`, `startsWith`, `endsWith`) are
re-implemented structurally below; `toLowerCase` is modelled on the ASCII
range, which covers every string constant appearing in the source tables.
-/

abbrev Str := List Char

def str (s : String) : Str := s.data

/-- ASCII lower-casing of one character, as `String.prototype.toLowerCase`
acts on the ASCII range. -/
def charLower (c : Char) : Char :=
  if 65 ≤ c.toNat ∧ c.toNat ≤ 90 then Char.ofNat (c.toNat + 32) else c

/-- Model of `s.toLowerCase()`. -/
def strLower (s : Str) : Str := s.map charLower

def isWsChar (c : Char) : Bool := c == ' ' || c == '\t' || c == '\n' || c == '\r'

/-- Model of `s.trim()`: drop whitespace from both ends. -/
def strTrim (s : Str) : Str :=
  ((s.dropWhile isWsChar).reverse.dropWhile isWsChar).reverse

/-- Model of `s.split(sep)` for a one-character separator class: split at every
character satisfying `p`, keeping empty pieces (as JavaScript does). -/
def splitAny (p : Char → Bool) : Str → List Str
  | [] => [[]]
  | c :: cs =>
    let rest := splitAny p cs
    if p c then [] :: rest
    else
      match rest with
      | [] => [[c]]
      | r :: rs => (c :: r) :: rs

/-- Does `hay` start with `pat`?  Model of `String.prototype.startsWith`. -/
def strStarts : Str → Str → Bool
  | _, [] => true
  | [], _ :: _ => false
  | a :: as, b :: bs => a == b && strStarts as bs

/-- Does `hay` end with `pat`?  Model of `String.prototype.endsWith`. -/
def strEnds (hay pat : Str) : Bool := strStarts hay.reverse pat.reverse

def strContainsAux : Str → Str → Bool
  | [], pat => pat.isEmpty
  | h :: t, pat => strStarts (h :: t) pat || strContainsAux t pat

/-- Model of `hay.includes(pat)`: `pat` occurs as a contiguous substring. -/
def strIncludes (hay pat : Str) : Bool := strContainsAux hay pat

/-- JavaScript runtime values, as far as the skill pipeline can observe them.
Numbers are represented by their decimal source text; only the string
rendering of a number is ever consumed by the pipeline (through the length
filter), so the lexeme is kept as is. -/
inductive JSValue where
  | vundef : JSValue
  | vnull : JSValue
  | vbool : Bool → JSValue
  | vnum : Str → JSValue
  | vstr : Str → JSValue
  | varr : List JSValue → JSValue
  | vobj : List (Str × JSValue) → JSValue

mutual

/-- Model of the JavaScript `String(v)` conversion. -/
def jsToString : JSValue → Str
  | .vundef => str "undefined"
  | .vnull => str "null"
  | .vbool b => if b then str "true" else str "false"
  | .vnum lex => lex
  | .vstr s => s
  | .varr xs => jsArrJoin (str ",") xs
  | .vobj _ => str "[object Object]"

/-- Model of `Array.prototype.join(sep)`: `null` and `undefined` elements
render as the empty string, every other element via `String(·)`. -/
def jsArrJoin (sep : Str) : List JSValue → Str
  | [] => []
  | [x] => jsElemStr x
  | x :: y :: rest => jsElemStr x ++ sep ++ jsArrJoin sep (y :: rest)

def jsElemStr : JSValue → Str
  | .vnull => []
  | .vundef => []
  | v => jsToString v

end

/-- Do all mantissa digits of a decimal number lexeme equal zero?  Used to
decide JavaScript truthiness of a number given by its source text. -/
def numLexIsZero (lex : Str) : Bool :=
  let core := lex.takeWhile (fun c => !(c == 'e' || c == 'E'))
  let core := match core with
    | '-' :: r => r
    | r => r
  core.all (fun c => c == '0' || c == '.')

/-- JavaScript falsiness of a value (`!v`). -/
def jsFalsy : JSValue → Bool
  | .vundef => true
  | .vnull => true
  | .vbool b => !b
  | .vnum lex => numLexIsZero lex
  | .vstr s => s.isEmpty
  | .varr _ => false
  | .vobj _ => false

def isJsArray : JSValue → Bool
  | .varr _ => true
  | _ => false

def isJsString : JSValue → Bool
  | .vstr _ => true
  | _ => false

/-! JSON parser, modelling `JSON.parse`.  Recursion is bounded by a fuel
argument; `parseJson` supplies fuel ample for its input length. -/

def skipWs : Str → Str
  | [] => []
  | c :: cs => if isWsChar c then skipWs cs else c :: cs

def hexVal (c : Char) : Option Nat :=
  if '0' ≤ c ∧ c ≤ '9' then some (c.toNat - 48)
  else if 'a' ≤ c ∧ c ≤ 'f' then some (c.toNat - 87)
  else if 'A' ≤ c ∧ c ≤ 'F' then some (c.toNat - 55)
  else none

/-- Parse the body of a JSON string (after the opening quote), handling the
escape sequences `JSON.parse` accepts.  Returns the decoded characters and
the remaining input after the closing quote. -/
def parseStrChars : Nat → Str → Option (Str × Str)
  | 0, _ => none
  | _, [] => none
  | fuel + 1, c :: cs =>
    if c = '"' then some ([], cs)
    else if c = '\\' then
      match cs with
      | [] => none
      | e :: cs2 =>
        if e = 'u' then
          match cs2 with
          | a :: b :: c3 :: d :: cs3 =>
            match hexVal a, hexVal b, hexVal c3, hexVal d with
            | some ha, some hb, some hc, some hd =>
              let code := ((ha * 16 + hb) * 16 + hc) * 16 + hd
              match parseStrChars fuel cs3 with
              | some (out, rest) => some (Char.ofNat code :: out, rest)
              | none => none
            | _, _, _, _ => none
          | _ => none
        else
          let dec : Option Char :=
            if e = '"' then some '"'
            else if e = '\\' then some '\\'
            else if e = '/' then some '/'
            else if e = 'b' then some (Char.ofNat 8)
            else if e = 'f' then some (Char.ofNat 12)
            else if e = 'n' then some '\n'
            else if e = 'r' then some '\r'
            else if e = 't' then some '\t'
            else none
          match dec with
          | some d =>
            match parseStrChars fuel cs2 with
            | some (out, rest) => some (d :: out, rest)
            | none => none
          | none => none
    else if c.toNat < 32 then none
    else
      match parseStrChars fuel cs with
      | some (out, rest) => some (c :: out, rest)
      | none => none

def takeDigits (cs : Str) : Str × Str :=
  (cs.takeWhile Char.isDigit, cs.dropWhile Char.isDigit)

/-- Parse a JSON number according to the strict JSON grammar, returning its
lexeme and the rest of the input. -/
def parseNumLex (cs : Str) : Option (Str × Str) :=
  let signed : Str × Str :=
    match cs with
    | '-' :: r => (['-'], r)
    | _ => ([], cs)
  let sign := signed.1
  match signed.2 with
  | [] => none
  | c :: r =>
    let intPart : Option (Str × Str) :=
      if c = '0' then some (['0'], r)
      else if c.isDigit then
        let d := takeDigits r
        some (c :: d.1, d.2)
      else none
    match intPart with
    | none => none
    | some (ip, r1) =>
      let fracPart : Option (Str × Str) :=
        match r1 with
        | '.' :: r2 =>
          let d := takeDigits r2
          if d.1.isEmpty then none else some ('.' :: d.1, d.2)
        | _ => some ([], r1)
      match fracPart with
      | none => none
      | some (fp, r2) =>
        let expPart : Option (Str × Str) :=
          match r2 with
          | e :: r3 =>
            if e = 'e' ∨ e = 'E' then
              let signedE : Str × Str :=
                match r3 with
                | '+' :: r4 => (['+'], r4)
                | '-' :: r4 => (['-'], r4)
                | _ => ([], r3)
              let d := takeDigits signedE.2
              if d.1.isEmpty then none else some (e :: signedE.1 ++ d.1, d.2)
            else some ([], r2)
          | [] => some ([], r2)
        match expPart with
        | none => none
        | some (ep, r3) => some (sign ++ ip ++ fp ++ ep, r3)

def dropLit : Str → Str → Option Str
  | cs, [] => some cs
  | [], _ :: _ => none
  | c :: cs, l :: ls => if c = l then dropLit cs ls else none

mutual

/-- Parse one JSON value (fuel-bounded). -/
def parseVal : Nat → Str → Option (JSValue × Str)
  | 0, _ => none
  | _ + 1, [] => none
  | fuel + 1, c :: cs =>
    if c = 'n' then
      match dropLit cs (str "ull") with
      | some rest => some (.vnull, rest)
      | none => none
    else if c = 't' then
      match dropLit cs (str "rue") with
      | some rest => some (.vbool true, rest)
      | none => none
    else if c = 'f' then
      match dropLit cs (str "alse") with
      | some rest => some (.vbool false, rest)
      | none => none
    else if c = '"' then
      match parseStrChars (cs.length + 1) cs with
      | some (out, rest) => some (.vstr out, rest)
      | none => none
    else if c = '[' then
      match skipWs cs with
      | ']' :: rest => some (.varr [], rest)
      | cs1 =>
        match parseItems fuel cs1 with
        | some (xs, rest) => some (.varr xs, rest)
        | none => none
    else if c = '{' then
      match skipWs cs with
      | '}' :: rest => some (.vobj [], rest)
      | cs1 =>
        match parseMembers fuel cs1 with
        | some (ms, rest) => some (.vobj ms, rest)
        | none => none
    else
      match parseNumLex (c :: cs) with
      | some (lex, rest) => some (.vnum lex, rest)
      | none => none

/-- Parse the elements of a JSON array up to and including the closing
bracket. -/
def parseItems : Nat → Str → Option (List JSValue × Str)
  | 0, _ => none
  | fuel + 1, cs =>
    match parseVal fuel cs with
    | none => none
    | some (v, cs1) =>
      match skipWs cs1 with
      | ',' :: cs2 =>
        match parseItems fuel (skipWs cs2) with
        | some (vs, rest) => some (v :: vs, rest)
        | none => none
      | ']' :: cs2 => some ([v], cs2)
      | _ => none

/-- Parse the members of a JSON object up to and including the closing
brace. -/
def parseMembers : Nat → Str → Option (List (Str × JSValue) × Str)
  | 0, _ => none
  | fuel + 1, cs =>
    match cs with
    | '"' :: cs0 =>
      match parseStrChars (cs0.length + 1) cs0 with
      | none => none
      | some (key, cs1) =>
        match skipWs cs1 with
        | ':' :: cs2 =>
          match parseVal fuel (skipWs cs2) with
          | none => none
          | some (v, cs3) =>
            match skipWs cs3 with
            | ',' :: cs4 =>
              match parseMembers fuel (skipWs cs4) with
              | some (ms, rest) => some ((key, v) :: ms, rest)
              | none => none
            | '}' :: cs4 => some ([(key, v)], cs4)
            | _ => none
        | _ => none
    | _ => none

end

/-- Model of `JSON.parse(s)`: `none` corresponds to a thrown `SyntaxError`. -/
def parseJson (s : Str) : Option JSValue :=
  let cs := skipWs s
  match parseVal (2 * cs.length + 2) cs with
  | some (v, rest) => if skipWs rest = [] then some v else none
  | none => none

/-! Skill Normalizer: `processSkills` from `controllers/dashboardController.js`
(lines 19-66) and, identically, `controllers/registerController.js`
(lines 113-160). -/

/-- Model of the comma-split fallback
`trimmed.split(',').map(s => s.trim()).filter(s => s.length > 0)`. -/
def commaSplitSkills (t : Str) : List JSValue :=
  (((splitAny (fun c => c == ',') t).map strTrim).filter
    (fun s => decide (0 < s.length))).map JSValue.vstr

/-- Value of the `skillsArray` variable of `processSkills` just before the
final clean-up stage.  Paths on which the source returns `[]` early
(falsy input, empty or literal `"[]"` string, non-array non-string input)
yield `[]` here; cleaning `[]` returns `[]`, so the composition below agrees
with the source's early returns. -/
def rawSkillsArray (v : JSValue) : List JSValue :=
  if jsFalsy v then []
  else
    match v with
    | .varr xs => xs
    | .vstr s =>
      let trimmed := strTrim s
      if trimmed = str "" ∨ trimmed = str "[]" then []
      else if strStarts trimmed (str "[") && strEnds trimmed (str "]") then
        match parseJson trimmed with
        | some (.varr xs) => xs
        | some _ => []
        | none => commaSplitSkills trimmed
      else commaSplitSkills trimmed
    | _ => []

/-- Model of `processSkills` (Skill Normalizer): the raw skills array is sent
through the final clean-up stage
`.map(skill => String(skill).trim()).filter(s => s.length > 0 && s.length <= 50).slice(0, 20)`. -/
def processSkills (v : JSValue) : List Str :=
  (((rawSkillsArray v).map (fun x => strTrim (jsToString x))).filter
    (fun s => decide (0 < s.length ∧ s.length ≤ 50))).take 20

/-! Relatedness Table and `areRelatedSkills` from
`controllers/userSearchController.js` lines 687-726. -/

def relatedSkillsMap : List (Str × List Str) :=
  [ (str "react", [str "javascript", str "js", str "jsx", str "frontend",
      str "web development", str "next", str "nextjs"]),
    (str "vue", [str "javascript", str "js", str "frontend",
      str "web development", str "nuxt"]),
    (str "angular", [str "typescript", str "javascript", str "js",
      str "frontend", str "web development"]),
    (str "node", [str "javascript", str "js", str "backend", str "server",
      str "express"]),
    (str "nodejs", [str "javascript", str "js", str "backend", str "server",
      str "express"]),
    (str "python", [str "django", str "flask", str "fastapi", str "backend",
      str "data science", str "machine learning", str "ai"]),
    (str "java", [str "spring", str "backend", str "enterprise",
      str "springboot"]),
    (str "typescript", [str "javascript", str "js", str "react",
      str "angular", str "node"]),
    (str "css", [str "html", str "frontend", str "web development",
      str "sass", str "scss", str "tailwind"]),
    (str "html", [str "css", str "frontend", str "web development"]),
    (str "sql", [str "database", str "mysql", str "postgresql",
      str "mongodb"]),
    (str "aws", [str "cloud", str "devops", str "infrastructure", str "ec2",
      str "s3"]),
    (str "docker", [str "devops", str "containerization",
      str "kubernetes"]),
    (str "git", [str "version control", str "github", str "gitlab"]),
    (str "mongodb", [str "database", str "nosql", str "mongoose"]),
    (str "mysql", [str "database", str "sql", str "relational"]),
    (str "postgresql", [str "database", str "sql", str "relational"]),
    (str "redis", [str "cache", str "database", str "memory"]),
    (str "graphql", [str "api", str "query language", str "apollo"]),
    (str "rest", [str "api", str "web service", str "http"]),
    (str "sass", [str "css", str "scss", str "styling"]),
    (str "scss", [str "css", str "sass", str "styling"]),
    (str "tailwind", [str "css", str "utility", str "styling"]),
    (str "bootstrap", [str "css", str "framework", str "responsive"]) ]

/-- One direction of the table lookup:
`relatedSkillsMap[a] && relatedSkillsMap[a].includes(b)`. -/
def relatedLookup (a b : Str) : Bool :=
  match relatedSkillsMap.find? (fun p => p.1 == a) with
  | some p => p.2.contains b
  | none => false

/-- Model of `areRelatedSkills(skill1, skill2)`. -/
def areRelatedSkills (skill1 skill2 : Str) : Bool :=
  relatedLookup (strLower skill1) (strLower skill2) ||
    relatedLookup (strLower skill2) (strLower skill1)

/-! Match Scorer: `matchSkills` from `controllers/userSearchController.js`
lines 185-358.  Candidates are modelled at the point where their skills have
been parsed out of the persistence layer into a string list, which is the
shape the scoring loop operates on. -/

/-- Model of the query parsing of `matchSkills` (lines 198-201):
lower-case, split on the character class `[,;|\n]`, trim, drop empties. -/
def parseInputSkills (skills : Str) : List Str :=
  ((splitAny (fun c => c == ',' || c == ';' || c == '|' || c == '\n')
      (strLower skills)).map strTrim).filter (fun s => decide (0 < s.length))

structure Candidate where
  id : Nat
  skills : List Str
  availability : Str
  createdAt : Nat
deriving DecidableEq

structure MatchResult where
  cand : Candidate
  matchScore : Nat
  matchingSkills : List Str
  exactCount : Nat
  substrCount : Nat
  relatedCount : Nat
  totalCount : Nat
deriving DecidableEq

/-- Model of `candidateSkills.filter(skill => skill && skill.trim().length > 0)`
(an empty string is falsy, so the truthiness test adds nothing for strings). -/
def candFiltered (c : Candidate) : List Str :=
  c.skills.filter (fun s => decide (0 < (strTrim s).length))

/-- Model of `candidateSkills.map(skill => skill.toLowerCase().trim())`. -/
def candLower (c : Candidate) : List Str :=
  (candFiltered c).map (fun s => strTrim (strLower s))

/-- Classification of the pairs `(inputSkill, candidateSkill)` for one query
term, scanning the (lowercased, original) candidate skills in order.  Each
pair lands in at most one of the exact / substring ("partial" in the source) /
related buckets, mirroring the `if / else if / else if` chain of the inner
`forEach` (lines 277-287); the original-case skill is what gets pushed. -/
def classifyOne (q : Str) : List (Str × Str) → List Str × List Str × List Str
  | [] => ([], [], [])
  | (cl, co) :: rest =>
    let acc := classifyOne q rest
    if cl = q then (co :: acc.1, acc.2.1, acc.2.2)
    else if strIncludes cl q || strIncludes q cl then
      (acc.1, co :: acc.2.1, acc.2.2)
    else if areRelatedSkills q cl then (acc.1, acc.2.1, co :: acc.2.2)
    else acc

/-- Accumulation over all query terms (outer `forEach` of lines 277-287). -/
def classifyAll : List Str → List (Str × Str) → List Str × List Str × List Str
  | [], _ => ([], [], [])
  | q :: qs, pairs =>
    let h := classifyOne q pairs
    let t := classifyAll qs pairs
    (h.1 ++ t.1, h.2.1 ++ t.2.1, h.2.2 ++ t.2.2)

/-- Model of `[...new Set(list)]`: deduplicate keeping first occurrences. -/
def dedupFirst (l : List Str) : List Str :=
  l.foldl (fun acc x => if x ∈ acc then acc else acc ++ [x]) []

def maxPossibleScore (inputSkills : List Str) : Nat := 3 * inputSkills.length

/-- Model of `Math.round(num / den)` for natural `num`, `den` (floor of the
exact ratio plus one half, as `Math.round` rounds half-way cases up). -/
def jsRound (num den : Nat) : Nat := (2 * num + den) / (2 * den)

/-- Scoring of one candidate against the parsed query skills
(lines 247-331 of `matchSkills`). -/
def scoreCandidate (inputSkills : List Str) (c : Candidate) : MatchResult :=
  let pairs := (candLower c).zip (candFiltered c)
  let res := classifyAll inputSkills pairs
  let exactMatches := res.1
  let substrMatches := res.2.1
  let relatedMatches := res.2.2
  let totalScore :=
    exactMatches.length * 3 + substrMatches.length * 2 + relatedMatches.length
  let maxPossible := maxPossibleScore inputSkills
  let score :=
    if 0 < maxPossible then jsRound (totalScore * 100) maxPossible else 0
  let allMatching := dedupFirst (exactMatches ++ substrMatches ++ relatedMatches)
  ⟨c, score, allMatching, exactMatches.length, substrMatches.length,
    relatedMatches.length, allMatching.length⟩

/-- Model of the sort comparator of lines 333-339. -/
def jsCmpMatch (a b : MatchResult) : Int :=
  if b.matchScore ≠ a.matchScore then (b.matchScore : Int) - (a.matchScore : Int)
  else if a.cand.availability = str "available" ∧
      b.cand.availability ≠ str "available" then -1
  else if b.cand.availability = str "available" ∧
      a.cand.availability ≠ str "available" then 1
  else (b.cand.createdAt : Int) - (a.cand.createdAt : Int)

def leMatch (a b : MatchResult) : Bool := decide (jsCmpMatch a b ≤ 0)

/-- Stable insertion of `x` into `l`, placing `x` before the first element it
need not follow.  `insertBy`/`sortBy` model `Array.prototype.sort`, which is
specified as a stable sort consistent with the comparator. -/
def insertBy {α : Type} (le : α → α → Bool) (x : α) : List α → List α
  | [] => [x]
  | y :: ys => if le x y then x :: y :: ys else y :: insertBy le x ys

def sortBy {α : Type} (le : α → α → Bool) : List α → List α
  | [] => []
  | x :: xs => insertBy le x (sortBy le xs)

/-- Result list of `matchSkills` for a parsed query: score every candidate,
drop zero scores, sort by the comparator, keep the top 25 (lines 247-340). -/
def matchPipeline (inputSkills : List Str) (cands : List Candidate) :
    List MatchResult :=
  (sortBy leMatch
    ((cands.map (scoreCandidate inputSkills)).filter
      (fun r => decide (0 < r.matchScore)))).take 25

/-- Model of the whole `matchSkills` endpoint on a string-typed `skills`
body field: the guard `if (!skills || !skills.trim())` rejects empty or
whitespace-only input with an error response (line 190-195) before any
parsing; otherwise the pipeline result is returned. -/
def matchSkillsEndpoint (skills : Str) (cands : List Candidate) :
    Except Str (List MatchResult) :=
  if strTrim skills = [] then
    Except.error (str "Skills are required for matching")
  else Except.ok (matchPipeline (parseInputSkills skills) cands)

/-! Category Classifier: `getProfessionalCategories` from
`controllers/userSearchController.js` lines 463-626. -/

structure CatDef where
  name : Str
  keywords : List Str
  icon : Str

structure CatCount where
  name : Str
  count : Nat
  icon : Str
deriving DecidableEq

/-- Professional projection consumed by the classifier: `title` and `bio`
model `(professional.title || '')` and `(professional.bio || '')`, the raw
`skills` column is carried as a JavaScript value. -/
structure Professional where
  title : Str
  bio : Str
  skills : JSValue

/-- The category table of lines 487-558, in declared (insertion) order. -/
def categoriesTable : List CatDef :=
  [ ⟨str "Frontend Developer",
      [str "frontend", str "front-end", str "front end", str "react",
        str "vue", str "angular", str "javascript", str "html", str "css",
        str "ui developer", str "web developer", str "jsx",
        str "typescript"], str "Code"⟩,
    ⟨str "Backend Developer",
      [str "backend", str "back-end", str "back end", str "node",
        str "nodejs", str "python", str "java", str "php", str "api",
        str "server", str "database", str "django", str "flask",
        str "spring"], str "Database"⟩,
    ⟨str "Full Stack Developer",
      [str "fullstack", str "full-stack", str "full stack", str "mern",
        str "mean", str "lamp", str "stack"], str "Layers"⟩,
    ⟨str "Data Engineer",
      [str "data engineer", str "data engineering", str "etl",
        str "data pipeline", str "big data", str "hadoop", str "spark",
        str "airflow", str "kafka"], str "Database"⟩,
    ⟨str "Data Analyst",
      [str "data analyst", str "data analysis", str "analyst",
        str "business analyst", str "reporting", str "dashboard",
        str "excel", str "tableau", str "power bi"], str "BarChart"⟩,
    ⟨str "Data Scientist",
      [str "data scientist", str "data science", str "machine learning",
        str "ml", str "ai", str "artificial intelligence", str "analytics",
        str "statistics"], str "TrendingUp"⟩,
    ⟨str "DevOps Engineer",
      [str "devops", str "dev ops", str "docker", str "kubernetes",
        str "aws", str "azure", str "gcp", str "jenkins", str "ci/cd",
        str "terraform", str "ansible"], str "Settings"⟩,
    ⟨str "Cloud Engineer",
      [str "cloud", str "aws", str "azure", str "gcp", str "google cloud",
        str "cloud architect", str "cloud developer", str "ec2", str "s3",
        str "lambda"], str "Settings"⟩,
    ⟨str "Mobile Developer",
      [str "mobile", str "ios", str "android", str "react native",
        str "flutter", str "swift", str "kotlin", str "app developer"],
      str "Smartphone"⟩,
    ⟨str "QA Engineer",
      [str "qa", str "quality assurance", str "testing", str "test",
        str "automation", str "selenium", str "tester",
        str "manual testing", str "test engineer"], str "CheckCircle"⟩,
    ⟨str "UI/UX Designer",
      [str "ui", str "ux", str "designer", str "design", str "figma",
        str "sketch", str "adobe", str "user experience",
        str "user interface", str "graphic"], str "Palette"⟩,
    ⟨str "Product Manager",
      [str "product manager", str "product management", str "pm",
        str "product owner", str "scrum master", str "agile",
        str "product lead"], str "Users"⟩,
    ⟨str "Software Engineer",
      [str "software engineer", str "software developer", str "programmer",
        str "coding", str "development", str "engineer"], str "Code"⟩,
    ⟨str "Others", [], str "User"⟩ ]

def taxonomyNames : List Str := categoriesTable.map (fun c => c.name)

/-- Skills text of a professional (lines 564-579): parse the raw skills
value like the source's guarded `JSON.parse`, then
`skills.join(' ').toLowerCase()` when an array resulted, else the empty
string. -/
def profSkillsText (v : JSValue) : Str :=
  let parsedSkills : JSValue :=
    match v with
    | .vstr s =>
      match parseJson s with
      | some w => w
      | none => .varr []
    | .varr xs => .varr xs
    | _ => .varr []
  match parsedSkills with
  | .varr xs => strLower (jsArrJoin (str " ") xs)
  | _ => []

/-- Combined lowercase text blob of line 580. -/
def combinedText (p : Professional) : Str :=
  strLower p.title ++ str " " ++ strLower p.bio ++ str " " ++
    profSkillsText p.skills

/-- Category assignment for one professional (lines 582-603): the first
table entry other than `Others` with a keyword occurring in the combined
text wins; with no match the professional falls into `Others`. -/
def classifyProf (p : Professional) : Str :=
  match categoriesTable.find? (fun c =>
      c.name != str "Others" &&
        c.keywords.any (fun kw => strIncludes (combinedText p) (strLower kw))) with
  | some c => c.name
  | none => str "Others"

def initCatCounts : List CatCount :=
  categoriesTable.map (fun c => ⟨c.name, 0, c.icon⟩)

/-- Model of `categories[name].count++` for the assigned category. -/
def bumpCount (name : Str) (l : List CatCount) : List CatCount :=
  l.map (fun e => if e.name = name then ⟨e.name, e.count + 1, e.icon⟩ else e)

/-- Per-category tallies after processing every professional
(the `forEach` of lines 561-603). -/
def tallyCategories (profs : List Professional) : List CatCount :=
  profs.foldl (fun acc p => bumpCount (classifyProf p) acc) initCatCounts

def sumCounts (l : List CatCount) : Nat := (l.map (fun c => c.count)).sum

/-- Model of the sort comparator of lines 613-618. -/
def jsCmpCat (a b : CatCount) : Int :=
  if a.name = str "Others" then 1
  else if b.name = str "Others" then -1
  else (b.count : Int) - (a.count : Int)

def leCat (a b : CatCount) : Bool := decide (jsCmpCat a b ≤ 0)

/-- Emitted category summary (lines 606-618): keep categories with positive
count, sort with the comparator above. -/
def categoryArray (profs : List Professional) : List CatCount :=
  sortBy leCat
    ((tallyCategories profs).filter (fun c => decide (0 < c.count)))

/-- Ranking order the claims describe for match results: match score
descending, then availability `available` first, then `createdAt`
descending. -/
def MatchOrder (a b : MatchResult) : Prop :=
  b.matchScore < a.matchScore ∨
    (a.matchScore = b.matchScore ∧
      ((a.cand.availability = str "available" ∧
          b.cand.availability ≠ str "available") ∨
        ((a.cand.availability = str "available" ↔
            b.cand.availability = str "available") ∧
          b.cand.createdAt ≤ a.cand.createdAt)))

/-- Output order the claims describe for the category summary: `Others`
sorts after everything, other categories by count descending. -/
def CatOrder (a b : CatCount) : Prop :=
  b.name = str "Others" ∨ (a.name ≠ str "Others" ∧ b.count ≤ a.count)

/-! Generic facts about the stable insertion sort used to model
`Array.prototype.sort`. -/

theorem mem_insertBy {α : Type} (le : α → α → Bool) (x : α) (l : List α) (z : α) :
    z ∈ insertBy le x l ↔ z = x ∨ z ∈ l := by
  induction l with
  | nil => simp [insertBy]
  | cons y ys ih =>
    cases h : le x y with
    | true =>
      simp only [insertBy, h, if_true]
      simp [List.mem_cons]
    | false =>
      simp only [insertBy, h]
      simp [List.mem_cons, ih]
      tauto

theorem insertBy_perm {α : Type} (le : α → α → Bool) (x : α) (l : List α) :
    List.Perm (insertBy le x l) (x :: l) := by
  induction l with
  | nil => simp [insertBy]
  | cons y ys ih =>
    cases h : le x y with
    | true => simp [insertBy, h]
    | false =>
      simp only [insertBy, h]
      exact ((ih.cons y).trans (List.Perm.swap x y ys))

theorem sortBy_perm {α : Type} (le : α → α → Bool) (l : List α) :
    List.Perm (sortBy le l) l := by
  induction l with
  | nil => simp [sortBy]
  | cons x xs ih =>
    exact (insertBy_perm le x (sortBy le xs)).trans (ih.cons x)

theorem pairwise_insertBy {α : Type} {S : α → α → Prop} (le : α → α → Bool)
    (x : α) (l : List α) (hl : l.Pairwise S)
    (h1 : ∀ y ∈ l, le x y = true → S x y)
    (h2 : ∀ y ∈ l, le x y = false → S y x)
    (h3 : ∀ y ∈ l, ∀ z ∈ l, le x y = true → S y z → S x z) :
    (insertBy le x l).Pairwise S := by
  induction l with
  | nil => simp [insertBy]
  | cons y ys ih =>
    rcases List.pairwise_cons.mp hl with ⟨hy, hys⟩
    cases h : le x y with
    | true =>
      simp only [insertBy, h, if_true]
      refine List.pairwise_cons.mpr ⟨?_, hl⟩
      intro z hz
      rcases List.mem_cons.mp hz with hz | hz
      · subst hz
        exact h1 z (List.mem_cons_self z ys) h
      · exact h3 y (List.mem_cons_self y ys) z (List.mem_cons_of_mem y hz) h
          (hy z hz)
    | false =>
      simp only [insertBy, h, Bool.false_eq_true, if_false]
      refine List.pairwise_cons.mpr ⟨?_, ?_⟩
      · intro z hz
        rcases (mem_insertBy le x ys z).mp hz with hz | hz
        · subst hz
          exact h2 y (List.mem_cons_self y ys) h
        · exact hy z hz
      · exact ih hys
          (fun w hw hle => h1 w (List.mem_cons_of_mem y hw) hle)
          (fun w hw hle => h2 w (List.mem_cons_of_mem y hw) hle)
          (fun w hw z hz hle hS =>
            h3 w (List.mem_cons_of_mem y hw) z (List.mem_cons_of_mem y hz) hle hS)

theorem pairwise_sortBy {α : Type} {S : α → α → Prop} (le : α → α → Bool)
    (l : List α)
    (h1 : ∀ a ∈ l, ∀ b ∈ l, le a b = true → S a b)
    (h2 : ∀ a ∈ l, ∀ b ∈ l, le a b = false → S b a)
    (htr : ∀ a ∈ l, ∀ b ∈ l, ∀ c ∈ l, S a b → S b c → S a c) :
    (sortBy le l).Pairwise S := by
  induction l with
  | nil => simp [sortBy]
  | cons x xs ih =>
    have hmem : ∀ y ∈ sortBy le xs, y ∈ xs :=
      fun y hy => (sortBy_perm le xs).mem_iff.mp hy
    have hx : x ∈ x :: xs := List.mem_cons_self x xs
    have hxs : ∀ y ∈ xs, y ∈ x :: xs := fun y hy => List.mem_cons_of_mem x hy
    refine pairwise_insertBy le x (sortBy le xs)
      (ih (fun a ha b hb hle => h1 a (hxs a ha) b (hxs b hb) hle)
          (fun a ha b hb hle => h2 a (hxs a ha) b (hxs b hb) hle)
          (fun a ha b hb c hc hab hbc =>
            htr a (hxs a ha) b (hxs b hb) c (hxs c hc) hab hbc))
      ?_ ?_ ?_
    · exact fun y hy hle => h1 x hx y (hxs y (hmem y hy)) hle
    · exact fun y hy hle => h2 x hx y (hxs y (hmem y hy)) hle
    · intro y hy z hz hle hS
      exact htr x hx y (hxs y (hmem y hy)) z (hxs z (hmem z hz))
        (h1 x hx y (hxs y (hmem y hy)) hle) hS

/-! Properties of the match-mode comparator. -/

theorem leMatch_true_imp (a b : MatchResult) (h : leMatch a b = true) :
    MatchOrder a b := by
  have h' : jsCmpMatch a b ≤ 0 := of_decide_eq_true h
  unfold jsCmpMatch at h'
  unfold MatchOrder
  split_ifs at h' with hs ha hb
  · left
    omega
  · right
    exact ⟨by omega, Or.inl ha⟩
  · omega
  · right
    refine ⟨by omega, Or.inr ⟨?_, by omega⟩⟩
    constructor
    · intro haa
      by_contra hbb
      exact ha ⟨haa, hbb⟩
    · intro hbb
      by_contra haa
      exact hb ⟨hbb, haa⟩

theorem leMatch_false_imp (a b : MatchResult) (h : leMatch a b = false) :
    MatchOrder b a := by
  have h' : ¬ jsCmpMatch a b ≤ 0 := of_decide_eq_false h
  unfold jsCmpMatch at h'
  unfold MatchOrder
  split_ifs at h' with hs ha hb
  · left
    omega
  · omega
  · right
    exact ⟨by omega, Or.inl hb⟩
  · right
    refine ⟨by omega, Or.inr ⟨?_, by omega⟩⟩
    constructor
    · intro hbb
      by_contra haa
      exact hb ⟨hbb, haa⟩
    · intro haa
      by_contra hbb
      exact ha ⟨haa, hbb⟩

theorem matchOrder_trans {a b c : MatchResult} (hab : MatchOrder a b)
    (hbc : MatchOrder b c) : MatchOrder a c := by
  unfold MatchOrder at *
  rcases hab with hab | ⟨hseq, hx⟩
  · rcases hbc with hbc | ⟨hseq', _⟩
    · left; omega
    · left; omega
  · rcases hbc with hbc | ⟨hseq', hy⟩
    · left; omega
    · right
      refine ⟨by omega, ?_⟩
      rcases hx with ⟨haa, hnb⟩ | ⟨hiff, hd⟩
      · rcases hy with ⟨hbb, _⟩ | ⟨hiff', hd'⟩
        · exact absurd hbb hnb
        · exact Or.inl ⟨haa, fun hcc => hnb (hiff'.mpr hcc)⟩
      · rcases hy with ⟨hbb, hnc⟩ | ⟨hiff', hd'⟩
        · exact Or.inl ⟨hiff.mpr hbb, hnc⟩
        · exact Or.inr ⟨hiff.trans hiff', le_trans hd' hd⟩

/-! Counting facts about the pair-classification of the Match Scorer. -/

theorem classifyOne_len (q : Str) (pairs : List (Str × Str)) :
    (classifyOne q pairs).1.length + (classifyOne q pairs).2.1.length +
      (classifyOne q pairs).2.2.length ≤ pairs.length := by
  induction pairs with
  | nil => simp [classifyOne]
  | cons p rest ih =>
    obtain ⟨cl, co⟩ := p
    simp only [classifyOne]
    split_ifs <;> simp only [List.length_cons] <;> omega

theorem classifyAll_len (qs : List Str) (pairs : List (Str × Str)) :
    (classifyAll qs pairs).1.length + (classifyAll qs pairs).2.1.length +
      (classifyAll qs pairs).2.2.length ≤ qs.length * (pairs.length) := by
  induction qs with
  | nil => simp [classifyAll]
  | cons q qs ih =>
    simp only [classifyAll, List.length_append, List.length_cons]
    have h1 := classifyOne_len q pairs
    rw [Nat.succ_mul]
    omega

theorem classifyOne_cons (q cl co : Str) (rest : List (Str × Str)) :
    classifyOne q ((cl, co) :: rest) =
      if cl = q then
        (co :: (classifyOne q rest).1, (classifyOne q rest).2.1,
          (classifyOne q rest).2.2)
      else if strIncludes cl q || strIncludes q cl then
        ((classifyOne q rest).1, co :: (classifyOne q rest).2.1,
          (classifyOne q rest).2.2)
      else if areRelatedSkills q cl then
        ((classifyOne q rest).1, (classifyOne q rest).2.1,
          co :: (classifyOne q rest).2.2)
      else classifyOne q rest := rfl

theorem classifyOne_exact_pos (q : Str) (pairs : List (Str × Str))
    (h : q ∈ pairs.map Prod.fst) : 1 ≤ (classifyOne q pairs).1.length := by
  induction pairs with
  | nil => simp at h
  | cons p rest ih =>
    obtain ⟨cl, co⟩ := p
    simp only [List.map_cons, List.mem_cons] at h
    rw [classifyOne_cons]
    by_cases hcl : cl = q
    · rw [if_pos hcl]
      simp only [List.length_cons]
      omega
    · have h' : q ∈ rest.map Prod.fst := by
        rcases h with h | h
        · exact absurd h.symm hcl
        · exact h
      rw [if_neg hcl]
      split_ifs <;> exact ih h'

theorem classifyAll_exact_ge (qs : List Str) (pairs : List (Str × Str))
    (h : ∀ t ∈ qs, t ∈ pairs.map Prod.fst) :
    qs.length ≤ (classifyAll qs pairs).1.length := by
  induction qs with
  | nil => simp
  | cons q qs ih =>
    simp only [classifyAll, List.length_append, List.length_cons]
    have h1 := classifyOne_exact_pos q pairs (h q (List.mem_cons_self q qs))
    have h2 := ih (fun t ht => h t (List.mem_cons_of_mem q ht))
    omega

/-! Arithmetic facts about the rounded percentage. -/

theorem jsRound_le (qn L t : Nat) (hq : 0 < qn) (ht : t ≤ 3 * (qn * L)) :
    jsRound (t * 100) (3 * qn) ≤ 100 * L := by
  unfold jsRound
  have h1 : 2 * (t * 100) + 3 * qn ≤ 3 * qn * (200 * L + 1) := by nlinarith
  calc (2 * (t * 100) + 3 * qn) / (2 * (3 * qn))
      ≤ 3 * qn * (200 * L + 1) / (2 * (3 * qn)) := Nat.div_le_div_right h1
    _ = 3 * qn * (200 * L + 1) / (3 * qn * 2) := by ring_nf
    _ = (200 * L + 1) / 2 := Nat.mul_div_mul_left _ _ (by positivity)
    _ = 100 * L := by omega

theorem jsRound_ge_100 (qn t : Nat) (hq : 0 < qn) (ht : 3 * qn ≤ t) :
    100 ≤ jsRound (t * 100) (3 * qn) := by
  unfold jsRound
  have h1 : 3 * qn * 201 ≤ 2 * (t * 100) + 3 * qn := by nlinarith
  have h2 : 3 * qn * 201 / (2 * (3 * qn)) ≤
      (2 * (t * 100) + 3 * qn) / (2 * (3 * qn)) := Nat.div_le_div_right h1
  have h3 : 3 * qn * 201 / (2 * (3 * qn)) = 100 := by
    have hrw : 3 * qn * 201 / (2 * (3 * qn)) = 3 * qn * 201 / (3 * qn * 2) := by
      ring_nf
    rw [hrw, Nat.mul_div_mul_left _ _ (by positivity)]
  omega

/-! Shape facts about `scoreCandidate`. -/

theorem scoreCandidate_matchScore (q : List Str) (c : Candidate) :
    (scoreCandidate q c).matchScore =
      if 0 < maxPossibleScore q then
        jsRound
          (((classifyAll q ((candLower c).zip (candFiltered c))).1.length * 3 +
            (classifyAll q ((candLower c).zip (candFiltered c))).2.1.length * 2 +
            (classifyAll q ((candLower c).zip (candFiltered c))).2.2.length) * 100)
          (maxPossibleScore q)
      else 0 := rfl

theorem pairs_length (c : Candidate) :
    ((candLower c).zip (candFiltered c)).length = (candFiltered c).length := by
  simp [candLower, List.length_zip]

theorem pairs_map_fst (c : Candidate) :
    ((candLower c).zip (candFiltered c)).map Prod.fst = candLower c :=
  List.map_fst_zip _ _ (by simp [candLower])

/-! Properties of the category comparator. -/

theorem leCat_trans {a b c : CatCount} (h1 : leCat a b = true)
    (h2 : leCat b c = true) : leCat a c = true := by
  have h1' : jsCmpCat a b ≤ 0 := of_decide_eq_true h1
  have h2' : jsCmpCat b c ≤ 0 := of_decide_eq_true h2
  apply decide_eq_true
  unfold jsCmpCat at h1' h2' ⊢
  by_cases ha : a.name = str "Others"
  · rw [if_pos ha] at h1'
    omega
  · rw [if_neg ha] at h1' ⊢
    by_cases hb : b.name = str "Others"
    · rw [if_pos hb] at h2'
      omega
    · rw [if_neg hb] at h2'
      rw [if_neg hb] at h1'
      by_cases hc : c.name = str "Others"
      · rw [if_pos hc]
        omega
      · rw [if_neg hc] at h2' ⊢
        omega

theorem leCat_flip {a b : CatCount} (hne : a.name ≠ b.name)
    (h : leCat a b = false) : leCat b a = true := by
  have h' : ¬ jsCmpCat a b ≤ 0 := of_decide_eq_false h
  apply decide_eq_true
  unfold jsCmpCat at h' ⊢
  by_cases ha : a.name = str "Others"
  · have hb : b.name ≠ str "Others" := fun hb => hne (ha.trans hb.symm)
    rw [if_neg hb, if_pos ha]
    omega
  · by_cases hb : b.name = str "Others"
    · rw [if_neg ha, if_pos hb] at h'
      omega
    · rw [if_neg ha, if_neg hb] at h'
      rw [if_neg hb, if_neg ha]
      omega

theorem leCat_imp_catOrder {a b : CatCount} (h : leCat a b = true) :
    CatOrder a b := by
  have h' : jsCmpCat a b ≤ 0 := of_decide_eq_true h
  unfold jsCmpCat at h'
  unfold CatOrder
  by_cases ha : a.name = str "Others"
  · rw [if_pos ha] at h'
    omega
  · by_cases hb : b.name = str "Others"
    · exact Or.inl hb
    · rw [if_neg ha, if_neg hb] at h'
      exact Or.inr ⟨ha, by omega⟩

/-! Facts about the tally of category counts. -/

theorem bumpCount_names (n : Str) (l : List CatCount) :
    (bumpCount n l).map (fun c => c.name) = l.map (fun c => c.name) := by
  unfold bumpCount
  rw [List.map_map]
  apply List.map_congr_left
  intro e _
  by_cases h : e.name = n <;> simp [h]

theorem sumCounts_bump (n : Str) (l : List CatCount) :
    sumCounts (bumpCount n l) =
      sumCounts l + (l.map (fun c => c.name)).count n := by
  induction l with
  | nil => rfl
  | cons e rest ih =>
    by_cases h : e.name = n
    · have hb : bumpCount n (e :: rest) =
          ⟨e.name, e.count + 1, e.icon⟩ :: bumpCount n rest := by
        simp [bumpCount, h]
      have hc : ((e :: rest).map (fun c => c.name)).count n =
          (rest.map (fun c => c.name)).count n + 1 := by
        rw [List.map_cons, List.count_cons]
        simp [h]
      rw [hb, hc]
      simp only [sumCounts, List.map_cons, List.sum_cons] at ih ⊢
      omega
    · have hb : bumpCount n (e :: rest) = e :: bumpCount n rest := by
        simp [bumpCount, h]
      have hc : ((e :: rest).map (fun c => c.name)).count n =
          (rest.map (fun c => c.name)).count n := by
        rw [List.map_cons, List.count_cons]
        have hne : (e.name == n) = false := beq_eq_false_iff_ne.mpr h
        rw [hne]
        simp
      rw [hb, hc]
      simp only [sumCounts, List.map_cons, List.sum_cons] at ih ⊢
      omega

theorem initCatCounts_names :
    initCatCounts.map (fun c => c.name) = taxonomyNames := by
  unfold initCatCounts taxonomyNames
  rw [List.map_map]
  rfl

theorem taxonomyNames_count : ∀ n ∈ taxonomyNames, taxonomyNames.count n = 1 := by
  decide

theorem taxonomyNames_nodup : taxonomyNames.Nodup := by decide

theorem classifyProf_mem (p : Professional) :
    classifyProf p ∈ taxonomyNames := by
  unfold classifyProf
  cases h : categoriesTable.find? (fun c =>
      c.name != str "Others" &&
        c.keywords.any (fun kw => strIncludes (combinedText p) (strLower kw))) with
  | none =>
    show (str "Others") ∈ taxonomyNames
    decide
  | some c =>
    exact List.mem_map.mpr ⟨c, List.mem_of_find?_eq_some h, rfl⟩

theorem tallyCategories_names (profs : List Professional) :
    (tallyCategories profs).map (fun c => c.name) = taxonomyNames := by
  unfold tallyCategories
  have h : ∀ acc : List CatCount, acc.map (fun c => c.name) = taxonomyNames →
      (profs.foldl (fun acc p => bumpCount (classifyProf p) acc) acc).map
        (fun c => c.name) = taxonomyNames := by
    induction profs with
    | nil => intro acc hacc; simpa using hacc
    | cons p ps ih =>
      intro acc hacc
      simp only [List.foldl_cons]
      exact ih _ (by rw [bumpCount_names]; exact hacc)
  exact h initCatCounts initCatCounts_names

theorem sumCounts_init : sumCounts initCatCounts = 0 := by decide

theorem tally_sum (profs : List Professional) :
    sumCounts (tallyCategories profs) = profs.length := by
  unfold tallyCategories
  have h : ∀ acc : List CatCount, acc.map (fun c => c.name) = taxonomyNames →
      sumCounts (profs.foldl (fun acc p => bumpCount (classifyProf p) acc) acc) =
        sumCounts acc + profs.length := by
    induction profs with
    | nil => intro acc _; simp
    | cons p ps ih =>
      intro acc hacc
      simp only [List.foldl_cons, List.length_cons]
      rw [ih _ (by rw [bumpCount_names]; exact hacc), sumCounts_bump, hacc,
        taxonomyNames_count (classifyProf p) (classifyProf_mem p)]
      omega
  rw [h initCatCounts initCatCounts_names, sumCounts_init]
  omega

/-! Claim theorems. -/

/-- C1 (amended): for every query skill list and candidate, the matchScore is
a nonnegative integer bounded by 100 times the number of (nonempty-trimmed)
candidate skills; the claimed upper bound of 100 itself fails, see the
counterexample below. -/
theorem c1_matchScore_bounds (q : List Str) (c : Candidate) :
    0 ≤ (scoreCandidate q c).matchScore ∧
    (scoreCandidate q c).matchScore ≤ 100 * (candFiltered c).length := by
  refine ⟨Nat.zero_le _, ?_⟩
  rw [scoreCandidate_matchScore]
  by_cases hq : 0 < maxPossibleScore q
  · rw [if_pos hq]
    have hq' : 0 < q.length := by
      unfold maxPossibleScore at hq
      omega
    have hlen := classifyAll_len q ((candLower c).zip (candFiltered c))
    rw [pairs_length] at hlen
    have hM : maxPossibleScore q = 3 * q.length := rfl
    rw [hM]
    refine jsRound_le q.length (candFiltered c).length _ hq' ?_
    omega
  · rw [if_neg hq]
    exact Nat.zero_le _

def c1Cand : Candidate := ⟨1, [str "jsx", str "node.js"], str "available", 0⟩

/-- C1 counterexample: the query `"js"` against candidate skills
`["jsx", "node.js"]` produces matchScore 133, outside the claimed
interval `[0, 100]` (both candidate skills are substring matches for the
single query term, so the raw score 4 exceeds the "maximum" 3). -/
theorem c1_counterexample :
    parseInputSkills (str "js") = [str "js"] ∧
    (scoreCandidate [str "js"] c1Cand).matchScore = 133 ∧
    100 < (scoreCandidate [str "js"] c1Cand).matchScore := by decide

/-- C3 (amended): a non-empty query each of whose terms occurs exactly
(case-insensitively) among the candidate's skills yields matchScore at
least 100; it can exceed 100 (see the counterexample), so "exactly 100"
fails. -/
theorem c3_exact_cover_ge_100 (q : List Str) (c : Candidate) (h1 : q ≠ [])
    (h2 : ∀ t ∈ q, t ∈ candLower c) :
    100 ≤ (scoreCandidate q c).matchScore := by
  rw [scoreCandidate_matchScore]
  have hq' : 0 < q.length := List.length_pos.mpr h1
  have hq : 0 < maxPossibleScore q := by
    unfold maxPossibleScore
    omega
  rw [if_pos hq]
  have hex := classifyAll_exact_ge q ((candLower c).zip (candFiltered c))
    (by rw [pairs_map_fst]; exact h2)
  have hM : maxPossibleScore q = 3 * q.length := rfl
  rw [hM]
  refine jsRound_ge_100 q.length _ hq' ?_
  omega

def c3Cand : Candidate := ⟨2, [str "React"], str "available", 0⟩

/-- C3 witness: the single-term query `["react"]` against candidate skills
`["React"]` satisfies the hypotheses and scores at least 100. -/
theorem c3_witness :
    (([str "react"] : List Str) ≠ [] ∧
      ∀ t ∈ ([str "react"] : List Str), t ∈ candLower c3Cand) ∧
    100 ≤ (scoreCandidate [str "react"] c3Cand).matchScore :=
  ⟨⟨by decide, by decide⟩, c3_exact_cover_ge_100 _ _ (by decide) (by decide)⟩

def c3CandJJ : Candidate := ⟨3, [str "java", str "javascript"], str "available", 0⟩

/-- C3 counterexample: candidate skills `["java", "javascript"]` exact-match
every term of the query `["java", "javascript"]`, yet the matchScore is 167,
not exactly 100 (the cross pairs are substring matches and also score). -/
theorem c3_counterexample :
    (∀ t ∈ ([str "java", str "javascript"] : List Str), t ∈ candLower c3CandJJ) ∧
    (scoreCandidate [str "java", str "javascript"] c3CandJJ).matchScore = 167 := by
  decide

/-- C4 (amended): when the raw query string is not rejected by the
`!skills.trim()` guard and parses to no query terms, maxPossibleScore is 0,
every candidate scores 0, and the endpoint returns an empty result list
rather than an error.  (An empty or whitespace-only query string is instead
rejected with an error response, see the counterexample.) -/
theorem c4_empty_query (s : Str) (cands : List Candidate)
    (h1 : strTrim s ≠ []) (h2 : parseInputSkills s = []) :
    maxPossibleScore (parseInputSkills s) = 0 ∧
    (∀ c ∈ cands, (scoreCandidate (parseInputSkills s) c).matchScore = 0) ∧
    matchSkillsEndpoint s cands = Except.ok [] := by
  refine ⟨by rw [h2]; rfl, ?_, ?_⟩
  · intro c _
    rw [h2]
    rfl
  · unfold matchSkillsEndpoint
    rw [if_neg h1, h2]
    have hf : (cands.map (scoreCandidate [])).filter
        (fun r => decide (0 < r.matchScore)) = [] := by
      apply List.filter_eq_nil_iff.mpr
      intro r hr
      rcases List.mem_map.mp hr with ⟨c, _, rfl⟩
      have h0 : (scoreCandidate [] c).matchScore = 0 := rfl
      simp [h0]
    unfold matchPipeline
    rw [hf]
    rfl

def c4Cand : Candidate := ⟨0, [str "react"], str "available", 5⟩

/-- C4 witness: the query string `","` passes the guard, parses to no terms,
and yields an empty result list without an error. -/
theorem c4_witness :
    (strTrim (str ",") ≠ [] ∧ parseInputSkills (str ",") = []) ∧
    (maxPossibleScore (parseInputSkills (str ",")) = 0 ∧
      (∀ c ∈ [c4Cand],
        (scoreCandidate (parseInputSkills (str ",")) c).matchScore = 0) ∧
      matchSkillsEndpoint (str ",") [c4Cand] = Except.ok []) :=
  ⟨⟨by decide, by decide⟩, c4_empty_query _ _ (by decide) (by decide)⟩

/-- C4 counterexample: the empty query string also has no query terms after
parsing, yet the endpoint answers with an error response instead of an
empty result list. -/
theorem c4_counterexample :
    parseInputSkills (str "") = [] ∧
    matchSkillsEndpoint (str "") [c4Cand] =
      Except.error (str "Skills are required for matching") :=
  ⟨rfl, rfl⟩

/-- C6: for every input value, the Skill Normalizer returns entries of
length 1 to 50 only, at most 20 of them, and exactly the first 20 (in
original order) of the cleaned valid entries. -/
theorem c6_normalizer_bounds (v : JSValue) :
    (∀ s ∈ processSkills v, 1 ≤ s.length ∧ s.length ≤ 50) ∧
    (processSkills v).length ≤ 20 ∧
    processSkills v =
      (((rawSkillsArray v).map (fun x => strTrim (jsToString x))).filter
        (fun s => decide (0 < s.length ∧ s.length ≤ 50))).take 20 := by
  refine ⟨?_, List.length_take_le _ _, rfl⟩
  intro s hs
  have hs1 : s ∈ ((rawSkillsArray v).map (fun x => strTrim (jsToString x))).filter
      (fun s => decide (0 < s.length ∧ s.length ≤ 50)) := List.mem_of_mem_take hs
  have hs2 := (List.mem_filter.mp hs1).2
  have hs3 := of_decide_eq_true hs2
  omega

/-- C7: the relatedness lookup is symmetric in its two arguments, because
`areRelatedSkills` tries the static table in both directions and takes the
disjunction. -/
theorem c7_related_symmetric (a b : Str) :
    areRelatedSkills a b = areRelatedSkills b a := by
  unfold areRelatedSkills
  exact Bool.or_comm _ _

/-- C10: an input that is neither an array nor a string is mapped to the
empty skill list by the Skill Normalizer, whatever the value is. -/
theorem c10_nonarray_nonstring_empty (v : JSValue) (h1 : isJsArray v = false)
    (h2 : isJsString v = false) : processSkills v = [] := by
  have hraw : rawSkillsArray v = [] := by
    unfold rawSkillsArray
    cases v with
    | varr xs => simp [isJsArray] at h1
    | vstr s => simp [isJsString] at h2
    | vundef => rfl
    | vnull => rfl
    | vbool b => cases b <;> rfl
    | vnum lex =>
      by_cases hz : jsFalsy (JSValue.vnum lex)
      · rw [if_pos hz]
      · rw [if_neg hz]
    | vobj ms => rfl
  unfold processSkills
  rw [hraw]
  rfl

/-- C10 witness: the (truthy) number `5` is neither an array nor a string
and normalizes to the empty skill list. -/
theorem c10_witness :
    (isJsArray (JSValue.vnum (str "5")) = false ∧
      isJsString (JSValue.vnum (str "5")) = false) ∧
    processSkills (JSValue.vnum (str "5")) = [] :=
  ⟨⟨rfl, rfl⟩, c10_nonarray_nonstring_empty _ rfl rfl⟩

/-- C2 (amended): every entry of the returned match list has nonzero
matchScore, unconditionally — in particular a candidate with zero matched
skills never appears, whatever the size of the candidate pool; and whenever
at most 25 scored candidates have nonzero matchScore, every candidate with
nonzero matchScore appears in the list; with more than 25 such candidates
the top-25 truncation drops some of them (see the counterexample). -/
theorem c2_result_iff_nonzero (q : List Str) (cands : List Candidate) :
    (∀ r ∈ matchPipeline q cands, 0 < r.matchScore) ∧
    (((cands.map (scoreCandidate q)).filter
        (fun r => decide (0 < r.matchScore))).length ≤ 25 →
      ∀ r ∈ cands.map (scoreCandidate q), 0 < r.matchScore →
        r ∈ matchPipeline q cands) := by
  constructor
  · intro r hr
    have hr1 : r ∈ sortBy leMatch ((cands.map (scoreCandidate q)).filter
        (fun r => decide (0 < r.matchScore))) := List.mem_of_mem_take hr
    have hr2 := (sortBy_perm leMatch _).mem_iff.mp hr1
    exact of_decide_eq_true (List.mem_filter.mp hr2).2
  · intro h r hr hpos
    have hf : r ∈ (cands.map (scoreCandidate q)).filter
        (fun r => decide (0 < r.matchScore)) :=
      List.mem_filter.mpr ⟨hr, decide_eq_true hpos⟩
    have hlen : (sortBy leMatch ((cands.map (scoreCandidate q)).filter
        (fun r => decide (0 < r.matchScore)))).length ≤ 25 := by
      rw [(sortBy_perm leMatch _).length_eq]
      exact h
    have heq : matchPipeline q cands = sortBy leMatch
        ((cands.map (scoreCandidate q)).filter
          (fun r => decide (0 < r.matchScore))) :=
      List.take_of_length_le hlen
    rw [heq]
    exact (sortBy_perm leMatch _).mem_iff.mpr hf

def c2CandA : Candidate := ⟨0, [str "react"], str "available", 9⟩

def c2CandB : Candidate := ⟨1, [], str "available", 8⟩

/-- C2 witness: with two candidates, one matching and one with an empty
skill set, the returned list entries all score nonzero, the converse's
hypothesis holds, and every nonzero scorer appears. -/
theorem c2_witness :
    (∀ r ∈ matchPipeline [str "react"] [c2CandA, c2CandB], 0 < r.matchScore) ∧
    ((([c2CandA, c2CandB].map (scoreCandidate [str "react"])).filter
      (fun r => decide (0 < r.matchScore))).length ≤ 25 ∧
      (∀ r ∈ [c2CandA, c2CandB].map (scoreCandidate [str "react"]),
        0 < r.matchScore → r ∈ matchPipeline [str "react"] [c2CandA, c2CandB])) :=
  ⟨(c2_result_iff_nonzero [str "react"] [c2CandA, c2CandB]).1,
    ⟨by decide,
      (c2_result_iff_nonzero [str "react"] [c2CandA, c2CandB]).2 (by decide)⟩⟩

def c2Cands26 : List Candidate :=
  (List.range 26).map (fun i => ⟨i, [str "react"], str "available", 100 - i⟩)

def c2Dropped : Candidate := ⟨25, [str "react"], str "available", 75⟩

/-- C2 counterexample: among 26 processed candidates that all score 100, the
26th (lowest `createdAt`) has nonzero matchScore yet does not appear in the
returned list, because of the top-25 truncation; so "appears iff nonzero"
fails as stated. -/
theorem c2_counterexample :
    c2Dropped ∈ c2Cands26 ∧
    0 < (scoreCandidate [str "react"] c2Dropped).matchScore ∧
    scoreCandidate [str "react"] c2Dropped ∉
      matchPipeline [str "react"] c2Cands26 := by decide

/-- C5: the match result list is sorted by matchScore descending, breaking
ties by availability (`available` first) and then `createdAt` descending;
it holds at most 25 entries, and they dominate, in that order, every scored
candidate that was cut off. -/
theorem c5_ranking (q : List Str) (cands : List Candidate) :
    (matchPipeline q cands).length ≤ 25 ∧
    (matchPipeline q cands).Pairwise MatchOrder ∧
    ∃ rest : List MatchResult,
      List.Perm (matchPipeline q cands ++ rest)
        ((cands.map (scoreCandidate q)).filter
          (fun r => decide (0 < r.matchScore))) ∧
      ∀ x ∈ matchPipeline q cands, ∀ y ∈ rest, MatchOrder x y := by
  have hsorted : (sortBy leMatch ((cands.map (scoreCandidate q)).filter
      (fun r => decide (0 < r.matchScore)))).Pairwise MatchOrder :=
    pairwise_sortBy leMatch _
      (fun a _ b _ hle => leMatch_true_imp a b hle)
      (fun a _ b _ hle => leMatch_false_imp a b hle)
      (fun a _ b _ c _ hab hbc => matchOrder_trans hab hbc)
  refine ⟨List.length_take_le _ _, hsorted.sublist (List.take_sublist _ _),
    (sortBy leMatch ((cands.map (scoreCandidate q)).filter
      (fun r => decide (0 < r.matchScore)))).drop 25, ?_, ?_⟩
  · show List.Perm ((sortBy leMatch _).take 25 ++ (sortBy leMatch _).drop 25) _
    rw [List.take_append_drop]
    exact sortBy_perm leMatch _
  · have h2 := hsorted
    rw [← List.take_append_drop 25 (sortBy leMatch
      ((cands.map (scoreCandidate q)).filter
        (fun r => decide (0 < r.matchScore))))] at h2
    exact (List.pairwise_append.mp h2).2.2

/-- C8: the Category Classifier is total and partitioning: every
professional is assigned exactly one taxonomy category name, and the
per-category tallies always sum to the number of professionals processed. -/
theorem c8_partition :
    (∀ p : Professional, ∃! n : Str, n ∈ taxonomyNames ∧ classifyProf p = n) ∧
    ∀ profs : List Professional,
      sumCounts (tallyCategories profs) = profs.length := by
  constructor
  · intro p
    exact ⟨classifyProf p, ⟨classifyProf_mem p, rfl⟩, fun m hm => hm.2.symm⟩
  · exact tally_sum

theorem others_last_of_pairwise (l : List CatCount) (hp : l.Pairwise CatOrder)
    (hnd : l.Nodup)
    (hone : ∀ a ∈ l, ∀ b ∈ l, a.name = str "Others" → b.name = str "Others" →
      a = b) :
    ∀ c ∈ l, c.name = str "Others" → l.getLast? = some c := by
  induction l with
  | nil =>
    intro c hc
    simp at hc
  | cons x rest ih =>
    intro c hc hco
    rcases List.mem_cons.mp hc with rfl | hcr
    · cases rest with
      | nil => rfl
      | cons y t =>
        exfalso
        have hxy : CatOrder c y :=
          (List.pairwise_cons.mp hp).1 y (List.mem_cons_self y t)
        rcases hxy with hyO | ⟨hcO, _⟩
        · have hyc : y = c := hone y
            (List.mem_cons_of_mem c (List.mem_cons_self y t)) c
            (List.mem_cons_self c (y :: t)) hyO hco
          have hcmem : c ∉ y :: t := (List.nodup_cons.mp hnd).1
          apply hcmem
          rw [← hyc]
          exact List.mem_cons_self y t
        · exact hcO hco
    · have hrest := ih (List.pairwise_cons.mp hp).2 (List.nodup_cons.mp hnd).2
        (fun a ha b hb => hone a (List.mem_cons_of_mem x ha) b
          (List.mem_cons_of_mem x hb))
        c hcr hco
      cases rest with
      | nil => simp at hcr
      | cons y t =>
        rw [List.getLast?_cons_cons]
        exact hrest

/-- C9: the emitted category summary is a permutation of exactly the tallied
categories with positive count, it is ordered with `Others` last and the
rest by count descending, and whenever `Others` appears it is the last
element, regardless of its count. -/
theorem c9_category_output (profs : List Professional) :
    List.Perm (categoryArray profs)
      ((tallyCategories profs).filter (fun c => decide (0 < c.count))) ∧
    (∀ c ∈ categoryArray profs, 0 < c.count) ∧
    (categoryArray profs).Pairwise CatOrder ∧
    (∀ c ∈ categoryArray profs, c.name = str "Others" →
      (categoryArray profs).getLast? = some c) := by
  have hperm : List.Perm (categoryArray profs)
      ((tallyCategories profs).filter (fun c => decide (0 < c.count))) :=
    sortBy_perm leCat _
  have hnames : (tallyCategories profs).Pairwise (fun a b => a.name ≠ b.name) := by
    have h1 : ((tallyCategories profs).map (fun c => c.name)).Nodup := by
      rw [tallyCategories_names]
      exact taxonomyNames_nodup
    exact List.pairwise_map.mp h1
  have hnl : ((tallyCategories profs).filter
      (fun c => decide (0 < c.count))).Pairwise (fun a b => a.name ≠ b.name) :=
    hnames.sublist (List.filter_sublist _)
  have hne : ∀ a ∈ (tallyCategories profs).filter (fun c => decide (0 < c.count)),
      ∀ b ∈ (tallyCategories profs).filter (fun c => decide (0 < c.count)),
      a ≠ b → a.name ≠ b.name :=
    fun a ha b hb hab => hnl.forall (fun _ _ h => Ne.symm h) ha hb hab
  have hS : (categoryArray profs).Pairwise
      (fun a b => leCat a b = true ∨ a = b) := by
    apply pairwise_sortBy leCat
    · exact fun a _ b _ hle => Or.inl hle
    · intro a ha b hb hfalse
      by_cases heq : a = b
      · exact Or.inr heq.symm
      · exact Or.inl (leCat_flip (hne a ha b hb heq) hfalse)
    · intro a _ b _ c _ hab hbc
      rcases hab with hab | rfl
      · rcases hbc with hbc | rfl
        · exact Or.inl (leCat_trans hab hbc)
        · exact Or.inl hab
      · exact hbc
  have hndl : ((tallyCategories profs).filter
      (fun c => decide (0 < c.count))).Nodup :=
    hnl.imp (fun h heq => h (by rw [heq]))
  have hndout : (categoryArray profs).Nodup := hperm.symm.nodup hndl
  have hCat : (categoryArray profs).Pairwise CatOrder := by
    have hand := hS.and hndout
    refine hand.imp ?_
    intro a b hab
    rcases hab.1 with hle | heq
    · exact leCat_imp_catOrder hle
    · exact absurd heq hab.2
  refine ⟨hperm, ?_, hCat, ?_⟩
  · intro c hc
    have hc1 := hperm.mem_iff.mp hc
    exact of_decide_eq_true (List.mem_filter.mp hc1).2
  · apply others_last_of_pairwise _ hCat hndout
    intro a ha b hb haO hbO
    by_cases heq : a = b
    · exact heq
    · exact absurd (haO.trans hbO.symm)
        (hne a (hperm.mem_iff.mp ha) b (hperm.mem_iff.mp hb) heq)

/-- C1 witness: the bound instantiated at the concrete counterexample
query and candidate. -/
theorem c1_witness :
    0 ≤ (scoreCandidate [str "js"] c1Cand).matchScore ∧
    (scoreCandidate [str "js"] c1Cand).matchScore ≤
      100 * (candFiltered c1Cand).length :=
  c1_matchScore_bounds [str "js"] c1Cand

/-- C5 witness: the ranking property instantiated at a concrete query and
candidate pool. -/
theorem c5_witness :
    (matchPipeline [str "react"]
      [⟨0, [str "react"], str "available", 7⟩,
       ⟨1, [str "react"], str "busy", 8⟩]).length ≤ 25 ∧
    (matchPipeline [str "react"]
      [⟨0, [str "react"], str "available", 7⟩,
       ⟨1, [str "react"], str "busy", 8⟩]).Pairwise MatchOrder ∧
    ∃ rest : List MatchResult,
      List.Perm (matchPipeline [str "react"]
        [⟨0, [str "react"], str "available", 7⟩,
         ⟨1, [str "react"], str "busy", 8⟩] ++ rest)
        (([(⟨0, [str "react"], str "available", 7⟩ : Candidate),
           ⟨1, [str "react"], str "busy", 8⟩].map
            (scoreCandidate [str "react"])).filter
          (fun r => decide (0 < r.matchScore))) ∧
      ∀ x ∈ matchPipeline [str "react"]
        [⟨0, [str "react"], str "available", 7⟩,
         ⟨1, [str "react"], str "busy", 8⟩], ∀ y ∈ rest, MatchOrder x y :=
  c5_ranking [str "react"]
    [⟨0, [str "react"], str "available", 7⟩, ⟨1, [str "react"], str "busy", 8⟩]

/-- C6 witness: the normalizer bounds instantiated at a concrete
comma-separated input string. -/
theorem c6_witness :
    (∀ s ∈ processSkills (JSValue.vstr (str "react, node")),
      1 ≤ s.length ∧ s.length ≤ 50) ∧
    (processSkills (JSValue.vstr (str "react, node"))).length ≤ 20 ∧
    processSkills (JSValue.vstr (str "react, node")) =
      (((rawSkillsArray (JSValue.vstr (str "react, node"))).map
        (fun x => strTrim (jsToString x))).filter
          (fun s => decide (0 < s.length ∧ s.length ≤ 50))).take 20 :=
  c6_normalizer_bounds (JSValue.vstr (str "react, node"))

/-- C7 witness: symmetry instantiated at the pair from the spec's worked
example (`node` relates to `express` only via the `node` table row). -/
theorem c7_witness :
    areRelatedSkills (str "node") (str "express") =
      areRelatedSkills (str "express") (str "node") :=
  c7_related_symmetric (str "node") (str "express")

/-- C9 witness: the output-ordering property instantiated at a one-element
professional pool. -/
theorem c9_witness :
    List.Perm (categoryArray [⟨str "Frontend Developer", str "", JSValue.varr []⟩])
      ((tallyCategories [⟨str "Frontend Developer", str "", JSValue.varr []⟩]).filter
        (fun c => decide (0 < c.count))) ∧
    (∀ c ∈ categoryArray [⟨str "Frontend Developer", str "", JSValue.varr []⟩],
      0 < c.count) ∧
    (categoryArray [⟨str "Frontend Developer", str "", JSValue.varr []⟩]).Pairwise
      CatOrder ∧
    (∀ c ∈ categoryArray [⟨str "Frontend Developer", str "", JSValue.varr []⟩],
      c.name = str "Others" →
      (categoryArray [⟨str "Frontend Developer", str "",
        JSValue.varr []⟩]).getLast? = some c) :=
  c9_category_output [⟨str "Frontend Developer", str "", JSValue.varr []⟩]
